import Mathlib

/-!
Verification development for the DockerDetective scanner
(`dockerhub_scanner.py`).

The relational store (tables `images`, `vulnerabilities`, `packages`,
`image_vulnerabilities`, `scan_metadata`) is modelled as lists of row
structures.  The SQL statements of the source are embedded as pure
functions on this store:

* `update_download_status`  — the UPDATE of `update_download_status`;
* `ClaimStep`               — the claim query of `get_unscanned_container`
                              (`UPDATE ... WHERE image_name = (SELECT ...
                              ORDER BY COALESCE(pull_count,0) DESC LIMIT 1)`),
                              modelled as a relation because the ORDER BY has
                              no secondary key, so ties between rows with the
                              same pull_count are resolved arbitrarily;
* `ingestTx` / `ingest`     — the transaction body of
                              `parse_and_upload_scan_result` and its
                              commit/rollback wrapper (`ingestTx` returns
                              `none` when an exception is raised inside the
                              transaction; `ingest` then rolls back, i.e.
                              returns the store unchanged).  An optional
                              `IngestStep` argument injects a failure at a
                              chosen step, modelling a forced mid-transaction
                              error;
* `process_container`       — the per-job pipeline, driven by an `Env` of
                              external-tool outcomes; its result is an
                              `Except` so that Python exceptions that escape
                              the function are visible as `.error`;
* `poolLoop`                — the round loop of `main`.

Scan reports are modelled with exactly the fields the code reads:
`source.target.imageSize` and, per match, `vulnerability.id`,
`vulnerability.severity`, `vulnerability.fix.state`, `artifact.name`,
`artifact.version`.
-/

namespace DockerDetective

/-- One entry of the grype report's `matches` list, restricted to the fields
read by `parse_and_upload_scan_result`. -/
structure ScanMatch where
  vulnId : String
  severity : String
  fixState : String
  pkgName : String
  pkgVersion : String
deriving DecidableEq, Repr

/-- A grype scan report, restricted to the fields the code reads. -/
structure Report where
  imageSize : Option Int
  matchList : List ScanMatch
deriving DecidableEq, Repr

/-- A row of the `images` table (the Job entity), restricted to the columns
the scanner reads or writes. -/
structure ImageRow where
  image_id : Nat
  image_name : String
  pull_count : Option Int
  is_scanned : Bool
  download_status : String
  image_size : Option Int
  last_scanned : Option Nat
deriving DecidableEq, Repr

/-- A row of the `vulnerabilities` table. -/
structure VulnRow where
  vulnerability_id : Nat
  vulnerability_name : String
  severity : String
deriving DecidableEq, Repr

/-- A row of the `packages` table. -/
structure PkgRow where
  package_id : Nat
  name : String
  version : String
deriving DecidableEq, Repr

/-- A row of the `image_vulnerabilities` join table. -/
structure IVRow where
  image_id : Nat
  vulnerability_id : Nat
  package_id : Nat
  fix_state : String
deriving DecidableEq, Repr

/-- A row of the `scan_metadata` table. -/
structure MetaRow where
  image_id : Nat
  timestamp : Nat
  total_vulnerabilities : Nat
  critical_count : Nat
  high_count : Nat
  medium_count : Nat
  low_count : Nat
  negligible_count : Nat
  unknown_count : Nat
deriving DecidableEq, Repr

/-- The relational store.  `nextVulnId` / `nextPkgId` model the serial
id sequences of the `vulnerabilities` and `packages` tables. -/
structure Store where
  images : List ImageRow
  vulnerabilities : List VulnRow
  packages : List PkgRow
  image_vulnerabilities : List IVRow
  scan_metadata : List MetaRow
  nextVulnId : Nat
  nextPkgId : Nat
deriving DecidableEq, Repr

/-- Python's substring test (the expression `sub in s`), used on the pull
tool's stderr. -/
def containsSubstr (hay sub : String) : Bool :=
  hay.toList.tails.any (fun t => sub.toList.isPrefixOf t)

/-- The UPDATE of `update_download_status`: set `download_status`,
`is_scanned = TRUE` and `last_scanned = NOW()` on every row named
`image_name`. -/
def update_download_status (s : Store) (image_name status : String) (now : Nat) : Store :=
  { s with images := s.images.map fun row =>
      if row.image_name = image_name then
        { row with download_status := status, is_scanned := true, last_scanned := some now }
      else row }

/-! ## The Job Claimer (`get_unscanned_container`) -/

/-- The claim query's eligibility filter:
`is_scanned = FALSE AND download_status = 'pending'`. -/
def eligible (row : ImageRow) : Bool :=
  !row.is_scanned && row.download_status == "pending"

/-- The claim query's sort key, `COALESCE(pull_count, 0)`. -/
def coalescedPullCount (row : ImageRow) : Int :=
  row.pull_count.getD 0

/-- The claiming UPDATE: set `download_status = 'in_progress'` on every row
named `image_name`. -/
def setInProgress (s : Store) (image_name : String) : Store :=
  { s with images := s.images.map fun row =>
      if row.image_name = image_name then { row with download_status := "in_progress" }
      else row }

/-- The semantics of `get_unscanned_container`'s single SQL statement, as a
relation between the store and the (returned name, new store) outcome.  The
inner SELECT orders eligible rows by `COALESCE(pull_count,0) DESC` with no
secondary sort key and takes `LIMIT 1`, so any eligible row of maximal
coalesced pull count may be the one returned; the UPDATE then marks rows of
that name `in_progress` and `RETURNING` yields the name.  When no eligible
row exists the statement updates nothing and the function returns `None`. -/
def ClaimStep (s : Store) (out : Option String × Store) : Prop :=
  (∃ row ∈ s.images, eligible row = true ∧
      (∀ other ∈ s.images, eligible other = true →
        coalescedPullCount other ≤ coalescedPullCount row) ∧
      out = (some row.image_name, setInProgress s row.image_name)) ∨
  ((∀ row ∈ s.images, eligible row = false) ∧ out = (none, s))

/-- One deterministic resolution of the claim query (first maximal row in
list order), used to exhibit executions. -/
def claimNextFun (s : Store) : Option String × Store :=
  match (s.images.filter (fun r => eligible r)).argmax coalescedPullCount with
  | some row => (some row.image_name, setInProgress s row.image_name)
  | none => (none, s)

/-! ## The Result Ingestor (`parse_and_upload_scan_result`) -/

/-- The steps of the ingestion transaction, used to inject a forced failure:
the Job row UPDATE (a), the `vulnerabilities` insert (c), the `packages`
insert (d), the `image_vulnerabilities` inserts (e), and the
`scan_metadata` insert (f). -/
inductive IngestStep where
  | updateJob
  | insertVulnStep
  | insertPkgStep
  | insertIVStep
  | insertMetaStep
deriving DecidableEq, Repr

/-- The `UPDATE images SET image_size = ..., is_scanned = TRUE,
last_scanned = NOW(), download_status = 'success' WHERE image_name = ...`
of the ingestion transaction. -/
def updateImagesSuccess (s : Store) (size : Option Int) (image_name : String) (now : Nat) : Store :=
  { s with images := s.images.map fun row =>
      if row.image_name = image_name then
        { row with image_size := size, is_scanned := true,
                   last_scanned := some now, download_status := "success" }
      else row }

/-- The row the `RETURNING image_id` / `fetchone` pair reads (the update
does not change `image_name` or `image_id`, so the lookup is done on the
pre-update rows). -/
def findImage (s : Store) (image_name : String) : Option ImageRow :=
  s.images.find? (fun row => row.image_name == image_name)

/-- One row of the `INSERT INTO vulnerabilities ... ON CONFLICT
(vulnerability_name) DO NOTHING` batch. -/
def insertVuln (s : Store) (p : String × String) : Store :=
  if s.vulnerabilities.any (fun v => v.vulnerability_name == p.1) then s
  else
    { s with
      vulnerabilities := s.vulnerabilities ++
        [{ vulnerability_id := s.nextVulnId, vulnerability_name := p.1, severity := p.2 }],
      nextVulnId := s.nextVulnId + 1 }

/-- The whole `execute_values` batch over `vulnerabilities`. -/
def insertVulns (s : Store) (ps : List (String × String)) : Store :=
  ps.foldl insertVuln s

/-- One row of the `INSERT INTO packages ... ON CONFLICT (name, version)
DO NOTHING` batch. -/
def insertPkg (s : Store) (p : String × String) : Store :=
  if s.packages.any (fun q => q.name == p.1 && q.version == p.2) then s
  else
    { s with
      packages := s.packages ++ [{ package_id := s.nextPkgId, name := p.1, version := p.2 }],
      nextPkgId := s.nextPkgId + 1 }

/-- The whole `execute_values` batch over `packages`. -/
def insertPkgs (s : Store) (ps : List (String × String)) : Store :=
  ps.foldl insertPkg s

/-- The data carried for one `image_vulnerabilities` insert:
(image_id, vulnerability name, package name, package version, fix state). -/
structure IVData where
  image_id : Nat
  vulnName : String
  pkgName : String
  pkgVersion : String
  fixState : String
deriving DecidableEq, Repr

/-- One `INSERT INTO image_vulnerabilities ... SELECT ... FROM vuln_id,
pkg_id ON CONFLICT (image_id, vulnerability_id, package_id) DO NOTHING`:
the two CTEs look the ids up by name; if either lookup is empty the
cross join is empty and nothing is inserted. -/
def insertIV (s : Store) (iv : IVData) : Store :=
  match s.vulnerabilities.find? (fun v => v.vulnerability_name == iv.vulnName),
        s.packages.find? (fun p => p.name == iv.pkgName && p.version == iv.pkgVersion) with
  | some v, some p =>
      if s.image_vulnerabilities.any (fun r =>
          r.image_id == iv.image_id && r.vulnerability_id == v.vulnerability_id &&
          r.package_id == p.package_id) then s
      else
        { s with image_vulnerabilities := s.image_vulnerabilities ++
            [{ image_id := iv.image_id, vulnerability_id := v.vulnerability_id,
               package_id := p.package_id, fix_state := iv.fixState }] }
  | _, _ => s

/-- The loop over `image_vulnerabilities` inserts. -/
def insertIVs (s : Store) (ivs : List IVData) : Store :=
  ivs.foldl insertIV s

/-- Python's `counts[k] = counts.get(k, 0) + 1` on an association list. -/
def bump (k : String) : List (String × Nat) → List (String × Nat)
  | [] => [(k, 1)]
  | (k1, n) :: rest => if k1 = k then (k1, n + 1) :: rest else (k1, n) :: bump k rest

/-- Python's `counts[k] = v` (update in place, or append a new key). -/
def setKey (k : String) (v : Nat) : List (String × Nat) → List (String × Nat)
  | [] => [(k, v)]
  | (k1, n) :: rest => if k1 = k then (k1, v) :: rest else (k1, n) :: setKey k v rest

/-- Python's `counts.get(k, 0)`. -/
def lookupD : List (String × Nat) → String → Nat
  | [], _ => 0
  | (k1, n) :: rest, k => if k1 = k then n else lookupD rest k

/-- `sum(counts.values())`. -/
def sumValues (d : List (String × Nat)) : Nat :=
  (d.map Prod.snd).sum

/-- The `vulnerability_counts` dict: one `bump` per match severity, then
`vulnerability_counts['total'] = sum(vulnerability_counts.values())`. -/
def severityCounts (sevs : List String) : List (String × Nat) :=
  let d := sevs.foldl (fun d k => bump k d) []
  setKey "total" (sumValues d) d

/-- The `INSERT INTO scan_metadata ...` of the transaction, with the counts
read back from `vulnerability_counts` exactly as the code does. -/
def appendScanMetadata (s : Store) (image_id now : Nat) (sevs : List String) : Store :=
  let c := severityCounts sevs
  { s with scan_metadata := s.scan_metadata ++
      [{ image_id := image_id, timestamp := now,
         total_vulnerabilities := lookupD c "total",
         critical_count := lookupD c "Critical",
         high_count := lookupD c "High",
         medium_count := lookupD c "Medium",
         low_count := lookupD c "Low",
         negligible_count := lookupD c "Negligible",
         unknown_count := lookupD c "Unknown" }] }

/-- The body of the ingestion transaction (everything inside the `try`).
Returns `none` when an exception is raised: either the injected failure
`failAt`, or organically when the Job row UPDATE matches no row, so that
`cur.fetchone()[0]` subscripts `None`. -/
def ingestTx (failAt : Option IngestStep) (s : Store) (r : Report)
    (image_name : String) (now : Nat) : Option Store :=
  if failAt = some .updateJob then none else
  let s1 := updateImagesSuccess s r.imageSize image_name now
  match findImage s image_name with
  | none => none
  | some row =>
    let image_id := row.image_id
    let vulnerabilities := r.matchList.map fun m => (m.vulnId, m.severity)
    let packages := r.matchList.map fun m => (m.pkgName, m.pkgVersion)
    let image_vulnerabilities := r.matchList.map fun m =>
      IVData.mk image_id m.vulnId m.pkgName m.pkgVersion m.fixState
    if failAt = some .insertVulnStep then none else
    let s2 := insertVulns s1 vulnerabilities
    if failAt = some .insertPkgStep then none else
    let s3 := insertPkgs s2 packages
    if failAt = some .insertIVStep then none else
    let s4 := insertIVs s3 image_vulnerabilities
    if failAt = some .insertMetaStep then none else
    some (appendScanMetadata s4 image_id now (vulnerabilities.map Prod.snd))

/-- `parse_and_upload_scan_result`: commit the transaction on success,
roll it back (leaving the store untouched) when any step raised.  The
exception itself is caught and logged, never re-raised. -/
def ingest (failAt : Option IngestStep) (s : Store) (r : Report)
    (image_name : String) (now : Nat) : Store :=
  match ingestTx failAt s r image_name now with
  | some s1 => s1
  | none => s

/-! ## The Pipeline Executor (`process_container`) -/

/-- Outcome of the `docker pull` subprocess call in `pull_container`:
success, a `CalledProcessError` carrying the stderr text (the only
exception the function catches), or any other exception (e.g.
`FileNotFoundError`), which the function does not catch. -/
inductive PullOutcome where
  | ok
  | cpe (stderr : String)
  | exn
deriving DecidableEq, Repr

/-- Outcome of the `grype` subprocess call in `scan_container`: a zero exit
with JSON stdout that parses to `r`, a zero exit whose stdout is not valid
JSON (`json.loads` then raises `JSONDecodeError`, which the function does
not catch), a `CalledProcessError` (caught, the function returns `None`),
or any other exception. -/
inductive ScanOutcome where
  | report (r : Report)
  | badJson
  | cpe
  | exn
deriving DecidableEq, Repr

/-- Outcome of the `docker rmi` subprocess call in `delete_container`:
success, a `CalledProcessError` (caught and logged), or any other
exception (uncaught). -/
inductive DeleteOutcome where
  | ok
  | cpe
  | exn
deriving DecidableEq, Repr

/-- Where a Python exception that escapes `process_container` originated. -/
inductive Exn where
  | fromPull
  | fromScan
  | fromDelete
  | fromStatusUpdate
  | fromIngestConnect
deriving DecidableEq, Repr

/-- The external-world outcomes driving one `process_container` call:
the three subprocess results, whether the separate DB connection opened by
`update_download_status` fails, whether the `psycopg2.connect` that
`parse_and_upload_scan_result` performs before entering its `try` block
fails (that call is outside the `try`, so its exception is not caught
there), an injected failure inside the ingestion transaction, and the
clock. -/
structure Env where
  pullOutcome : PullOutcome
  scanOutcome : ScanOutcome
  deleteOutcome : DeleteOutcome
  updateStatusFails : Bool
  ingestConnectFails : Bool
  ingestFail : Option IngestStep
  now : Nat
deriving DecidableEq, Repr

/-- The pipeline steps that were actually started, in order. -/
inductive Action where
  | pullA
  | scanA
  | deleteA
  | ingestA
deriving DecidableEq, Repr

/-- `pull_container`: on `CalledProcessError` it classifies the stderr
(`'manifest unknown' in e.stderr`) and records the terminal status through
`update_download_status` (whose own DB error would propagate), then
returns `False`; any other exception propagates. -/
def pull_container (env : Env) (s : Store) (image_name : String) :
    Except Exn (Bool × Store) :=
  match env.pullOutcome with
  | .ok => .ok (true, s)
  | .cpe stderr =>
      if env.updateStatusFails then .error .fromStatusUpdate
      else if containsSubstr stderr "manifest unknown" then
        .ok (false, update_download_status s image_name "manifest_unknown" env.now)
      else
        .ok (false, update_download_status s image_name "download_failed" env.now)
  | .exn => .error .fromPull

/-- `scan_container`: returns the parsed report, or `None` on
`CalledProcessError`; a `JSONDecodeError` from `json.loads` or any other
exception propagates. -/
def scan_container (env : Env) : Except Exn (Option Report) :=
  match env.scanOutcome with
  | .report r => .ok (some r)
  | .cpe => .ok none
  | .badJson => .error .fromScan
  | .exn => .error .fromScan

/-- `delete_container`: best-effort, `CalledProcessError` is caught and
logged; any other exception propagates.  It never touches the store. -/
def delete_container (env : Env) (s : Store) : Except Exn Store :=
  match env.deleteOutcome with
  | .ok => .ok s
  | .cpe => .ok s
  | .exn => .error .fromDelete

/-- `parse_and_upload_scan_result` as called by the pipeline: it first
opens its own Job Store connection (`psycopg2.connect`, outside the `try`),
whose failure therefore propagates; only then does the `try` block run the
transaction `ingest`, which catches every exception of the body and rolls
back, so the call returns normally whatever happens inside the
transaction. -/
def parse_and_upload_scan_result (env : Env) (s : Store) (r : Report)
    (image_name : String) : Except Exn Store :=
  if env.ingestConnectFails then .error .fromIngestConnect
  else .ok (ingest env.ingestFail s r image_name env.now)

/-- `process_container`, given the result of its `get_unscanned_container`
call.  Returns `(completed?, store, actions started)`, or `.error` when a
Python exception escapes the function (it has no try/except of its own). -/
def process_container (claimed : Option String) (env : Env) (s : Store) :
    Except Exn (Bool × Store × List Action) :=
  match claimed with
  | none => .ok (false, s, [])
  | some image_name =>
    match pull_container env s image_name with
    | .error e => .error e
    | .ok (false, s1) => .ok (true, s1, [.pullA])
    | .ok (true, s1) =>
      match scan_container env with
      | .error e => .error e
      | .ok scanRes =>
        match delete_container env s1 with
        | .error e => .error e
        | .ok s2 =>
          match scanRes with
          | some r =>
              match parse_and_upload_scan_result env s2 r image_name with
              | .error e => .error e
              | .ok s3 => .ok (true, s3, [.pullA, .scanA, .deleteA, .ingestA])
          | none =>
              if env.updateStatusFails then .error .fromStatusUpdate
              else .ok (true, update_download_status s2 image_name "scan_failed" env.now,
                        [.pullA, .scanA, .deleteA])

/-! ## The Worker Pool Orchestrator (`main`) -/

/-- The pool's per-round termination test: `not any(future.result() ...)`
over the booleans returned by the round's `process_container` calls. -/
def roundAllNoJob (round : List Bool) : Bool :=
  !round.any id

/-- The `while True` loop of `main`, abstracted over the stream of
per-round results: it runs round `k`, stops (returning the index of the
final round) when no worker of the round completed a job, and otherwise
starts round `k+1`.  `fuel` bounds the rounds examined; `none` means the
loop was still running after `fuel` rounds. -/
def poolLoop (rounds : Nat → List Bool) : Nat → Nat → Option Nat
  | _, 0 => none
  | k, fuel + 1 =>
      if roundAllNoJob (rounds k) then some k else poolLoop rounds (k + 1) fuel

/-! ## Sequences of claims -/

/-- A sequence of claim operations executed one after the other (the
serialization of concurrent `ClaimNext` calls: each call's single UPDATE
statement is atomic, `FOR UPDATE SKIP LOCKED` keeps in-flight claims from
being handed out twice). -/
inductive ClaimSeq : Store → List (Option String) → Store → Prop where
  | nil (s : Store) : ClaimSeq s [] s
  | cons {s s1 s2 : Store} {r : Option String} {rs : List (Option String)} :
      ClaimStep s (r, s1) → ClaimSeq s1 rs s2 → ClaimSeq s (r :: rs) s2

instance claimStepDecidable (s : Store) (out : Option String × Store) :
    Decidable (ClaimStep s out) := by
  unfold ClaimStep
  infer_instance

/-! ## Frame lemmas: which tables each statement leaves untouched -/

@[simp] lemma update_download_status_vulnerabilities (s : Store) (n st : String) (now : Nat) :
    (update_download_status s n st now).vulnerabilities = s.vulnerabilities := rfl

@[simp] lemma update_download_status_scan_metadata (s : Store) (n st : String) (now : Nat) :
    (update_download_status s n st now).scan_metadata = s.scan_metadata := rfl

@[simp] lemma updateImagesSuccess_vulnerabilities (s : Store) (sz : Option Int) (n : String) (now : Nat) :
    (updateImagesSuccess s sz n now).vulnerabilities = s.vulnerabilities := rfl

@[simp] lemma updateImagesSuccess_packages (s : Store) (sz : Option Int) (n : String) (now : Nat) :
    (updateImagesSuccess s sz n now).packages = s.packages := rfl

@[simp] lemma updateImagesSuccess_image_vulnerabilities (s : Store) (sz : Option Int) (n : String) (now : Nat) :
    (updateImagesSuccess s sz n now).image_vulnerabilities = s.image_vulnerabilities := rfl

@[simp] lemma updateImagesSuccess_scan_metadata (s : Store) (sz : Option Int) (n : String) (now : Nat) :
    (updateImagesSuccess s sz n now).scan_metadata = s.scan_metadata := rfl

@[simp] lemma insertVuln_images (s : Store) (p : String × String) :
    (insertVuln s p).images = s.images := by
  unfold insertVuln; split <;> rfl

@[simp] lemma insertVuln_packages (s : Store) (p : String × String) :
    (insertVuln s p).packages = s.packages := by
  unfold insertVuln; split <;> rfl

@[simp] lemma insertVuln_image_vulnerabilities (s : Store) (p : String × String) :
    (insertVuln s p).image_vulnerabilities = s.image_vulnerabilities := by
  unfold insertVuln; split <;> rfl

@[simp] lemma insertVuln_scan_metadata (s : Store) (p : String × String) :
    (insertVuln s p).scan_metadata = s.scan_metadata := by
  unfold insertVuln; split <;> rfl

@[simp] lemma insertVulns_images (s : Store) (ps : List (String × String)) :
    (insertVulns s ps).images = s.images := by
  induction ps generalizing s with
  | nil => rfl
  | cons p ps ih =>
      rw [show (insertVulns s (p :: ps)) = insertVulns (insertVuln s p) ps from rfl,
          ih, insertVuln_images]

@[simp] lemma insertVulns_packages (s : Store) (ps : List (String × String)) :
    (insertVulns s ps).packages = s.packages := by
  induction ps generalizing s with
  | nil => rfl
  | cons p ps ih =>
      rw [show (insertVulns s (p :: ps)) = insertVulns (insertVuln s p) ps from rfl,
          ih, insertVuln_packages]

@[simp] lemma insertVulns_image_vulnerabilities (s : Store) (ps : List (String × String)) :
    (insertVulns s ps).image_vulnerabilities = s.image_vulnerabilities := by
  induction ps generalizing s with
  | nil => rfl
  | cons p ps ih =>
      rw [show (insertVulns s (p :: ps)) = insertVulns (insertVuln s p) ps from rfl,
          ih, insertVuln_image_vulnerabilities]

@[simp] lemma insertVulns_scan_metadata (s : Store) (ps : List (String × String)) :
    (insertVulns s ps).scan_metadata = s.scan_metadata := by
  induction ps generalizing s with
  | nil => rfl
  | cons p ps ih =>
      rw [show (insertVulns s (p :: ps)) = insertVulns (insertVuln s p) ps from rfl,
          ih, insertVuln_scan_metadata]

@[simp] lemma insertPkg_images (s : Store) (p : String × String) :
    (insertPkg s p).images = s.images := by
  unfold insertPkg; split <;> rfl

@[simp] lemma insertPkg_vulnerabilities (s : Store) (p : String × String) :
    (insertPkg s p).vulnerabilities = s.vulnerabilities := by
  unfold insertPkg; split <;> rfl

@[simp] lemma insertPkg_image_vulnerabilities (s : Store) (p : String × String) :
    (insertPkg s p).image_vulnerabilities = s.image_vulnerabilities := by
  unfold insertPkg; split <;> rfl

@[simp] lemma insertPkg_scan_metadata (s : Store) (p : String × String) :
    (insertPkg s p).scan_metadata = s.scan_metadata := by
  unfold insertPkg; split <;> rfl

@[simp] lemma insertPkgs_images (s : Store) (ps : List (String × String)) :
    (insertPkgs s ps).images = s.images := by
  induction ps generalizing s with
  | nil => rfl
  | cons p ps ih =>
      rw [show (insertPkgs s (p :: ps)) = insertPkgs (insertPkg s p) ps from rfl,
          ih, insertPkg_images]

@[simp] lemma insertPkgs_vulnerabilities (s : Store) (ps : List (String × String)) :
    (insertPkgs s ps).vulnerabilities = s.vulnerabilities := by
  induction ps generalizing s with
  | nil => rfl
  | cons p ps ih =>
      rw [show (insertPkgs s (p :: ps)) = insertPkgs (insertPkg s p) ps from rfl,
          ih, insertPkg_vulnerabilities]

@[simp] lemma insertPkgs_image_vulnerabilities (s : Store) (ps : List (String × String)) :
    (insertPkgs s ps).image_vulnerabilities = s.image_vulnerabilities := by
  induction ps generalizing s with
  | nil => rfl
  | cons p ps ih =>
      rw [show (insertPkgs s (p :: ps)) = insertPkgs (insertPkg s p) ps from rfl,
          ih, insertPkg_image_vulnerabilities]

@[simp] lemma insertPkgs_scan_metadata (s : Store) (ps : List (String × String)) :
    (insertPkgs s ps).scan_metadata = s.scan_metadata := by
  induction ps generalizing s with
  | nil => rfl
  | cons p ps ih =>
      rw [show (insertPkgs s (p :: ps)) = insertPkgs (insertPkg s p) ps from rfl,
          ih, insertPkg_scan_metadata]

@[simp] lemma insertIV_images (s : Store) (iv : IVData) :
    (insertIV s iv).images = s.images := by
  unfold insertIV
  split
  case _ => split <;> rfl
  case _ => rfl

@[simp] lemma insertIV_vulnerabilities (s : Store) (iv : IVData) :
    (insertIV s iv).vulnerabilities = s.vulnerabilities := by
  unfold insertIV
  split
  case _ => split <;> rfl
  case _ => rfl

@[simp] lemma insertIV_packages (s : Store) (iv : IVData) :
    (insertIV s iv).packages = s.packages := by
  unfold insertIV
  split
  case _ => split <;> rfl
  case _ => rfl

@[simp] lemma insertIV_scan_metadata (s : Store) (iv : IVData) :
    (insertIV s iv).scan_metadata = s.scan_metadata := by
  unfold insertIV
  split
  case _ => split <;> rfl
  case _ => rfl

@[simp] lemma insertIVs_images (s : Store) (ivs : List IVData) :
    (insertIVs s ivs).images = s.images := by
  induction ivs generalizing s with
  | nil => rfl
  | cons iv ivs ih =>
      rw [show (insertIVs s (iv :: ivs)) = insertIVs (insertIV s iv) ivs from rfl,
          ih, insertIV_images]

@[simp] lemma insertIVs_vulnerabilities (s : Store) (ivs : List IVData) :
    (insertIVs s ivs).vulnerabilities = s.vulnerabilities := by
  induction ivs generalizing s with
  | nil => rfl
  | cons iv ivs ih =>
      rw [show (insertIVs s (iv :: ivs)) = insertIVs (insertIV s iv) ivs from rfl,
          ih, insertIV_vulnerabilities]

@[simp] lemma insertIVs_packages (s : Store) (ivs : List IVData) :
    (insertIVs s ivs).packages = s.packages := by
  induction ivs generalizing s with
  | nil => rfl
  | cons iv ivs ih =>
      rw [show (insertIVs s (iv :: ivs)) = insertIVs (insertIV s iv) ivs from rfl,
          ih, insertIV_packages]

@[simp] lemma insertIVs_scan_metadata (s : Store) (ivs : List IVData) :
    (insertIVs s ivs).scan_metadata = s.scan_metadata := by
  induction ivs generalizing s with
  | nil => rfl
  | cons iv ivs ih =>
      rw [show (insertIVs s (iv :: ivs)) = insertIVs (insertIV s iv) ivs from rfl,
          ih, insertIV_scan_metadata]

@[simp] lemma appendScanMetadata_images (s : Store) (iid now : Nat) (sevs : List String) :
    (appendScanMetadata s iid now sevs).images = s.images := rfl

@[simp] lemma appendScanMetadata_vulnerabilities (s : Store) (iid now : Nat) (sevs : List String) :
    (appendScanMetadata s iid now sevs).vulnerabilities = s.vulnerabilities := rfl

@[simp] lemma appendScanMetadata_packages (s : Store) (iid now : Nat) (sevs : List String) :
    (appendScanMetadata s iid now sevs).packages = s.packages := rfl

@[simp] lemma appendScanMetadata_image_vulnerabilities (s : Store) (iid now : Nat) (sevs : List String) :
    (appendScanMetadata s iid now sevs).image_vulnerabilities = s.image_vulnerabilities := rfl

/-! ## Counting lemmas for the `vulnerability_counts` dict -/

lemma lookupD_bump (a k : String) (d : List (String × Nat)) :
    lookupD (bump a d) k = lookupD d k + (if a = k then 1 else 0) := by
  induction d with
  | nil => by_cases h : a = k <;> simp [bump, lookupD, h]
  | cons hd tl ih =>
      obtain ⟨k1, n⟩ := hd
      by_cases h1 : k1 = a
      · subst h1
        by_cases h2 : k1 = k <;> simp [bump, lookupD, h2]
      · by_cases h2 : k1 = k
        · have hak : ¬ a = k := fun hh => h1 (h2.trans hh.symm)
          have hka : ¬ k = a := fun hh => hak hh.symm
          simp [bump, h1, lookupD, h2, hak, hka]
        · simp [bump, h1, lookupD, h2, ih]

lemma sumValues_bump (a : String) (d : List (String × Nat)) :
    sumValues (bump a d) = sumValues d + 1 := by
  induction d with
  | nil => simp [bump, sumValues]
  | cons hd tl ih =>
      obtain ⟨k1, n⟩ := hd
      by_cases h1 : k1 = a <;> simp [bump, h1, sumValues] at ih ⊢ <;> omega

lemma lookupD_setKey (k0 k : String) (v : Nat) (d : List (String × Nat)) :
    lookupD (setKey k0 v d) k = if k0 = k then v else lookupD d k := by
  induction d with
  | nil => simp [setKey, lookupD]
  | cons hd tl ih =>
      obtain ⟨k1, n⟩ := hd
      by_cases h1 : k1 = k0
      · subst h1
        by_cases h2 : k1 = k <;> simp [setKey, lookupD, h2]
      · by_cases h2 : k1 = k
        · have hk : ¬ k0 = k := fun hh => h1 (h2.trans hh.symm)
          have hkk : ¬ k = k0 := fun hh => h1 (h2.trans hh)
          simp [setKey, h1, lookupD, h2, hk, hkk]
        · simp [setKey, h1, lookupD, h2, ih]

lemma lookupD_foldl_bump (ks : List String) (d : List (String × Nat)) (k : String) :
    lookupD (ks.foldl (fun d k => bump k d) d) k
      = lookupD d k + ks.countP (fun a => a == k) := by
  induction ks generalizing d with
  | nil => simp
  | cons a ks ih =>
      rw [List.foldl_cons, ih, lookupD_bump, List.countP_cons]
      by_cases h : a = k <;> simp [h] <;> omega

lemma sumValues_foldl_bump (ks : List String) (d : List (String × Nat)) :
    sumValues (ks.foldl (fun d k => bump k d) d) = sumValues d + ks.length := by
  induction ks generalizing d with
  | nil => simp
  | cons a ks ih =>
      rw [List.foldl_cons, ih, sumValues_bump, List.length_cons]
      omega

lemma severityCounts_total (sevs : List String) :
    lookupD (severityCounts sevs) "total" = sevs.length := by
  simp only [severityCounts]
  rw [lookupD_setKey, if_pos rfl, sumValues_foldl_bump]
  simp [sumValues]

lemma severityCounts_label (sevs : List String) (k : String) (h : k ≠ "total") :
    lookupD (severityCounts sevs) k = sevs.countP (fun a => a == k) := by
  simp only [severityCounts]
  rw [lookupD_setKey, if_neg (fun hh => h hh.symm), lookupD_foldl_bump]
  simp [lookupD]

/-! ## The shape of a successful ingestion transaction -/

lemma ingestTx_success (s : Store) (r : Report) (image_name : String) (now : Nat)
    (row : ImageRow) (h : findImage s image_name = some row) :
    ingestTx none s r image_name now = some
      (appendScanMetadata
        (insertIVs
          (insertPkgs
            (insertVulns (updateImagesSuccess s r.imageSize image_name now)
              (r.matchList.map fun m => (m.vulnId, m.severity)))
            (r.matchList.map fun m => (m.pkgName, m.pkgVersion)))
          (r.matchList.map fun m =>
            IVData.mk row.image_id m.vulnId m.pkgName m.pkgVersion m.fixState))
        row.image_id now ((r.matchList.map fun m => (m.vulnId, m.severity)).map Prod.snd)) := by
  unfold ingestTx
  simp [h]

lemma ingestTx_none_of_absent (failAt : Option IngestStep) (s : Store) (r : Report)
    (image_name : String) (now : Nat) (h : findImage s image_name = none) :
    ingestTx failAt s r image_name now = none := by
  unfold ingestTx
  rcases failAt with _ | step
  · simp [h]
  · cases step <;> simp [h]

lemma ingest_of_tx_none {failAt : Option IngestStep} {s : Store} {r : Report}
    {image_name : String} {now : Nat} (h : ingestTx failAt s r image_name now = none) :
    ingest failAt s r image_name now = s := by
  unfold ingest
  rw [h]

lemma ingest_of_tx_some {failAt : Option IngestStep} {s s1 : Store} {r : Report}
    {image_name : String} {now : Nat} (h : ingestTx failAt s r image_name now = some s1) :
    ingest failAt s r image_name now = s1 := by
  unfold ingest
  rw [h]

/-- The number of matches of a report carrying a given severity string. -/
def countSev (r : Report) (sev : String) : Nat :=
  r.matchList.countP (fun m => m.severity == sev)

/-- C4: the single `scan_metadata` row written by a successful ingestion
records, for each of the six severity labels, the number of matches of the
report carrying that severity, and a grand total equal to the number of
matches. -/
theorem scan_metadata_records_severity_histogram (s : Store) (r : Report)
    (image_name : String) (now : Nat) (row : ImageRow)
    (h : findImage s image_name = some row) :
    (ingest none s r image_name now).scan_metadata = s.scan_metadata ++
      [{ image_id := row.image_id, timestamp := now,
         total_vulnerabilities := r.matchList.length,
         critical_count := countSev r "Critical",
         high_count := countSev r "High",
         medium_count := countSev r "Medium",
         low_count := countSev r "Low",
         negligible_count := countSev r "Negligible",
         unknown_count := countSev r "Unknown" }] := by
  rw [ingest_of_tx_some (ingestTx_success s r image_name now row h)]
  simp only [appendScanMetadata, insertIVs_scan_metadata, insertPkgs_scan_metadata,
    insertVulns_scan_metadata, updateImagesSuccess_scan_metadata, List.map_map]
  rw [severityCounts_total,
      severityCounts_label _ "Critical" (by decide),
      severityCounts_label _ "High" (by decide),
      severityCounts_label _ "Medium" (by decide),
      severityCounts_label _ "Low" (by decide),
      severityCounts_label _ "Negligible" (by decide),
      severityCounts_label _ "Unknown" (by decide)]
  simp only [List.countP_map, countSev, List.length_map]
  rfl

/-! ## Presence predicates and upsert lemmas -/

/-- A row with this vulnerability name exists. -/
def hasVulnName (s : Store) (n : String) : Prop :=
  ∃ v ∈ s.vulnerabilities, v.vulnerability_name = n

/-- A row with this (name, version) pair exists. -/
def hasPkg (s : Store) (n ver : String) : Prop :=
  ∃ p ∈ s.packages, p.name = n ∧ p.version = ver

/-- The `image_vulnerabilities` insert for this data would be a no-op:
either one of the two id lookups is empty (so the INSERT...SELECT inserts
nothing), or the key triple is already present. -/
def ivPresent (s : Store) (iv : IVData) : Prop :=
  match s.vulnerabilities.find? (fun v => v.vulnerability_name == iv.vulnName),
        s.packages.find? (fun p => p.name == iv.pkgName && p.version == iv.pkgVersion) with
  | some v, some p =>
      (s.image_vulnerabilities.any fun r0 =>
        r0.image_id == iv.image_id && r0.vulnerability_id == v.vulnerability_id &&
        r0.package_id == p.package_id) = true
  | _, _ => True

lemma hasVulnName_transfer {s t : Store} (h : s.vulnerabilities = t.vulnerabilities)
    {n : String} : hasVulnName s n → hasVulnName t n := by
  unfold hasVulnName
  rw [h]
  exact id

lemma hasPkg_transfer {s t : Store} (h : s.packages = t.packages)
    {n ver : String} : hasPkg s n ver → hasPkg t n ver := by
  unfold hasPkg
  rw [h]
  exact id

lemma ivPresent_transfer {s t : Store} (hv : s.vulnerabilities = t.vulnerabilities)
    (hp : s.packages = t.packages) (hiv : s.image_vulnerabilities = t.image_vulnerabilities)
    {iv : IVData} : ivPresent s iv → ivPresent t iv := by
  unfold ivPresent
  rw [hv, hp, hiv]
  exact id

lemma insertVuln_self (s : Store) (p : String × String) :
    hasVulnName (insertVuln s p) p.1 := by
  unfold insertVuln
  split
  case isTrue h =>
      obtain ⟨v, hv, hb⟩ := List.any_eq_true.mp h
      exact ⟨v, hv, by simpa using hb⟩
  case isFalse h =>
      exact ⟨_, List.mem_append_right _ (List.mem_singleton_self _), rfl⟩

lemma hasVulnName_mono_insertVuln (s : Store) (p : String × String) {n : String}
    (h : hasVulnName s n) : hasVulnName (insertVuln s p) n := by
  obtain ⟨v, hv, hn⟩ := h
  unfold insertVuln
  split
  · exact ⟨v, hv, hn⟩
  · exact ⟨v, List.mem_append_left _ hv, hn⟩

lemma hasVulnName_mono_insertVulns (ps : List (String × String)) :
    ∀ (s : Store) {n : String}, hasVulnName s n → hasVulnName (insertVulns s ps) n := by
  induction ps with
  | nil => exact fun s _ h => h
  | cons q ps ih =>
      intro s n h
      rw [show insertVulns s (q :: ps) = insertVulns (insertVuln s q) ps from rfl]
      exact ih _ (hasVulnName_mono_insertVuln s q h)

lemma hasVulnName_insertVulns (ps : List (String × String)) :
    ∀ (s : Store) (p : String × String), p ∈ ps → hasVulnName (insertVulns s ps) p.1 := by
  induction ps with
  | nil => intro s p hp; cases hp
  | cons q ps ih =>
      intro s p hp
      rw [show insertVulns s (q :: ps) = insertVulns (insertVuln s q) ps from rfl]
      rcases List.mem_cons.mp hp with h | h
      · subst h
        exact hasVulnName_mono_insertVulns ps _ (insertVuln_self s p)
      · exact ih _ _ h

lemma insertVuln_noop (s : Store) (p : String × String) (h : hasVulnName s p.1) :
    insertVuln s p = s := by
  obtain ⟨v, hv, hn⟩ := h
  unfold insertVuln
  rw [if_pos (List.any_eq_true.mpr ⟨v, hv, by simp [hn]⟩)]

lemma insertVulns_noop (s : Store) (ps : List (String × String))
    (h : ∀ p ∈ ps, hasVulnName s p.1) : insertVulns s ps = s := by
  induction ps with
  | nil => rfl
  | cons q ps ih =>
      rw [show insertVulns s (q :: ps) = insertVulns (insertVuln s q) ps from rfl,
          insertVuln_noop s q (h q (List.mem_cons_self _ _))]
      exact ih (fun p hp => h p (List.mem_cons_of_mem _ hp))

lemma insertPkg_self (s : Store) (p : String × String) :
    hasPkg (insertPkg s p) p.1 p.2 := by
  unfold insertPkg
  split
  case isTrue h =>
      obtain ⟨q, hq, hb⟩ := List.any_eq_true.mp h
      refine ⟨q, hq, ?_, ?_⟩ <;> simp_all
  case isFalse h =>
      exact ⟨_, List.mem_append_right _ (List.mem_singleton_self _), rfl, rfl⟩

lemma hasPkg_mono_insertPkg (s : Store) (p : String × String) {n ver : String}
    (h : hasPkg s n ver) : hasPkg (insertPkg s p) n ver := by
  obtain ⟨q, hq, hn⟩ := h
  unfold insertPkg
  split
  · exact ⟨q, hq, hn⟩
  · exact ⟨q, List.mem_append_left _ hq, hn⟩

lemma hasPkg_mono_insertPkgs (ps : List (String × String)) :
    ∀ (s : Store) {n ver : String}, hasPkg s n ver → hasPkg (insertPkgs s ps) n ver := by
  induction ps with
  | nil => exact fun s _ _ h => h
  | cons q ps ih =>
      intro s n ver h
      rw [show insertPkgs s (q :: ps) = insertPkgs (insertPkg s q) ps from rfl]
      exact ih _ (hasPkg_mono_insertPkg s q h)

lemma hasPkg_insertPkgs (ps : List (String × String)) :
    ∀ (s : Store) (p : String × String), p ∈ ps → hasPkg (insertPkgs s ps) p.1 p.2 := by
  induction ps with
  | nil => intro s p hp; cases hp
  | cons q ps ih =>
      intro s p hp
      rw [show insertPkgs s (q :: ps) = insertPkgs (insertPkg s q) ps from rfl]
      rcases List.mem_cons.mp hp with h | h
      · subst h
        exact hasPkg_mono_insertPkgs ps _ (insertPkg_self s p)
      · exact ih _ _ h

lemma insertPkg_noop (s : Store) (p : String × String) (h : hasPkg s p.1 p.2) :
    insertPkg s p = s := by
  obtain ⟨q, hq, hn, hver⟩ := h
  unfold insertPkg
  rw [if_pos (List.any_eq_true.mpr ⟨q, hq, by simp [hn, hver]⟩)]

lemma insertPkgs_noop (s : Store) (ps : List (String × String))
    (h : ∀ p ∈ ps, hasPkg s p.1 p.2) : insertPkgs s ps = s := by
  induction ps with
  | nil => rfl
  | cons q ps ih =>
      rw [show insertPkgs s (q :: ps) = insertPkgs (insertPkg s q) ps from rfl,
          insertPkg_noop s q (h q (List.mem_cons_self _ _))]
      exact ih (fun p hp => h p (List.mem_cons_of_mem _ hp))

lemma insertIV_IV_append (s : Store) (iv : IVData) :
    ∃ l2, (insertIV s iv).image_vulnerabilities = s.image_vulnerabilities ++ l2 := by
  unfold insertIV
  split
  · split
    · exact ⟨[], (List.append_nil _).symm⟩
    · exact ⟨_, rfl⟩
  · exact ⟨[], (List.append_nil _).symm⟩

lemma insertIV_noop_of_present (s : Store) (iv : IVData) (h : ivPresent s iv) :
    insertIV s iv = s := by
  unfold ivPresent at h
  unfold insertIV
  split
  case _ v p hv hp =>
      rw [hv, hp] at h
      rw [if_pos h]
  case _ => rfl

lemma ivPresent_insertIV_self (s : Store) (iv : IVData) : ivPresent (insertIV s iv) iv := by
  unfold ivPresent
  rw [insertIV_vulnerabilities, insertIV_packages]
  cases hv : s.vulnerabilities.find? (fun v => v.vulnerability_name == iv.vulnName) with
  | none => trivial
  | some v =>
    cases hp : s.packages.find? (fun p => p.name == iv.pkgName && p.version == iv.pkgVersion) with
    | none => trivial
    | some p =>
      show ((insertIV s iv).image_vulnerabilities.any _) = true
      unfold insertIV
      rw [hv, hp]
      by_cases hin : (s.image_vulnerabilities.any fun r0 =>
          r0.image_id == iv.image_id && r0.vulnerability_id == v.vulnerability_id &&
          r0.package_id == p.package_id) = true
      · simpa [hin] using hin
      · simp [hin]

lemma ivPresent_mono_insertIV (s : Store) (iv iv2 : IVData) (h : ivPresent s iv) :
    ivPresent (insertIV s iv2) iv := by
  unfold ivPresent at h ⊢
  rw [insertIV_vulnerabilities, insertIV_packages]
  cases hv : s.vulnerabilities.find? (fun v => v.vulnerability_name == iv.vulnName) with
  | none => trivial
  | some v =>
    cases hp : s.packages.find? (fun p => p.name == iv.pkgName && p.version == iv.pkgVersion) with
    | none => trivial
    | some p =>
      rw [hv, hp] at h
      have h2 : (s.image_vulnerabilities.any fun r0 =>
          r0.image_id == iv.image_id && r0.vulnerability_id == v.vulnerability_id &&
          r0.package_id == p.package_id) = true := h
      obtain ⟨l2, hl⟩ := insertIV_IV_append s iv2
      show ((insertIV s iv2).image_vulnerabilities.any fun r0 =>
          r0.image_id == iv.image_id && r0.vulnerability_id == v.vulnerability_id &&
          r0.package_id == p.package_id) = true
      rw [hl, List.any_append, h2]
      rfl

lemma ivPresent_mono_insertIVs (ivs : List IVData) :
    ∀ (s : Store) (iv : IVData), ivPresent s iv → ivPresent (insertIVs s ivs) iv := by
  induction ivs with
  | nil => exact fun s iv h => h
  | cons q ivs ih =>
      intro s iv h
      rw [show insertIVs s (q :: ivs) = insertIVs (insertIV s q) ivs from rfl]
      exact ih _ _ (ivPresent_mono_insertIV s iv q h)

lemma ivPresent_insertIVs (ivs : List IVData) :
    ∀ (s : Store) (iv : IVData), iv ∈ ivs → ivPresent (insertIVs s ivs) iv := by
  induction ivs with
  | nil => intro s iv hiv; cases hiv
  | cons q ivs ih =>
      intro s iv hiv
      rw [show insertIVs s (q :: ivs) = insertIVs (insertIV s q) ivs from rfl]
      rcases List.mem_cons.mp hiv with h | h
      · subst h
        exact ivPresent_mono_insertIVs ivs _ _ (ivPresent_insertIV_self s iv)
      · exact ih _ _ h

lemma insertIVs_noop (s : Store) (ivs : List IVData)
    (h : ∀ iv ∈ ivs, ivPresent s iv) : insertIVs s ivs = s := by
  induction ivs with
  | nil => rfl
  | cons q ivs ih =>
      rw [show insertIVs s (q :: ivs) = insertIVs (insertIV s q) ivs from rfl,
          insertIV_noop_of_present s q (h q (List.mem_cons_self _ _))]
      exact ih (fun iv hiv => h iv (List.mem_cons_of_mem _ hiv))

/-! ## Atomicity of the ingestion transaction -/

lemma ingestTx_injected (step : IngestStep) (s : Store) (r : Report)
    (image_name : String) (now : Nat) :
    ingestTx (some step) s r image_name now = none := by
  unfold ingestTx
  cases step <;> cases h : findImage s image_name <;> simp [h]

lemma updateImagesSuccess_named (s : Store) (sz : Option Int) (n : String) (now : Nat) :
    ∀ row ∈ (updateImagesSuccess s sz n now).images, row.image_name = n →
      row.download_status = "success" ∧ row.is_scanned = true ∧
      row.image_size = sz ∧ row.last_scanned = some now := by
  intro row hrow hname
  simp only [updateImagesSuccess, List.mem_map] at hrow
  obtain ⟨orig, horig, hfe⟩ := hrow
  by_cases hn : orig.image_name = n
  · rw [if_pos hn] at hfe
    subst hfe
    exact ⟨rfl, rfl, rfl, rfl⟩
  · rw [if_neg hn] at hfe
    subst hfe
    exact absurd hname hn

lemma ingest_writes_present (s : Store) (r : Report) (image_name : String) (now : Nat)
    (row : ImageRow) (h : findImage s image_name = some row) :
    ∀ m ∈ r.matchList,
      hasVulnName (ingest none s r image_name now) m.vulnId ∧
      hasPkg (ingest none s r image_name now) m.pkgName m.pkgVersion ∧
      ivPresent (ingest none s r image_name now)
        (IVData.mk row.image_id m.vulnId m.pkgName m.pkgVersion m.fixState) := by
  have hE := ingest_of_tx_some (ingestTx_success s r image_name now row h)
  intro m hm
  refine ⟨?_, ?_, ?_⟩
  · refine hasVulnName_transfer (s := insertVulns
      (updateImagesSuccess s r.imageSize image_name now)
      (r.matchList.map fun m => (m.vulnId, m.severity))) ?_ ?_
    · rw [hE]
      simp
    · exact hasVulnName_insertVulns _ _ (m.vulnId, m.severity)
        (List.mem_map_of_mem _ hm)
  · refine hasPkg_transfer (s := insertPkgs
      (insertVulns (updateImagesSuccess s r.imageSize image_name now)
        (r.matchList.map fun m => (m.vulnId, m.severity)))
      (r.matchList.map fun m => (m.pkgName, m.pkgVersion))) ?_ ?_
    · rw [hE]
      simp
    · exact hasPkg_insertPkgs _ _ (m.pkgName, m.pkgVersion)
        (List.mem_map_of_mem _ hm)
  · refine ivPresent_transfer (s := insertIVs
      (insertPkgs (insertVulns (updateImagesSuccess s r.imageSize image_name now)
          (r.matchList.map fun m => (m.vulnId, m.severity)))
        (r.matchList.map fun m => (m.pkgName, m.pkgVersion)))
      (r.matchList.map fun m =>
        IVData.mk row.image_id m.vulnId m.pkgName m.pkgVersion m.fixState))
      ?_ ?_ ?_ ?_
    · rw [hE]
      simp
    · rw [hE]
      simp
    · rw [hE]
      simp
    · exact ivPresent_insertIVs _ _ _ (List.mem_map_of_mem _ hm)

lemma ingest_success_meta_length (s : Store) (r : Report) (image_name : String) (now : Nat)
    (row : ImageRow) (h : findImage s image_name = some row) :
    (ingest none s r image_name now).scan_metadata.length = s.scan_metadata.length + 1 := by
  rw [ingest_of_tx_some (ingestTx_success s r image_name now row h)]
  simp [appendScanMetadata]

/-- Everything a successful ingestion call writes, visible in the final
store `s1`: the Job row update of step (a), the presence of every match's
vulnerability id, package and join-table triple from steps (c)-(e), and the
one appended `scan_metadata` row of step (f). -/
def AllWrites (s : Store) (r : Report) (image_name : String) (now : Nat) (s1 : Store) : Prop :=
  ∃ row0, findImage s image_name = some row0 ∧
    (∀ row ∈ s1.images, row.image_name = image_name →
        row.download_status = "success" ∧ row.is_scanned = true ∧
        row.image_size = r.imageSize ∧ row.last_scanned = some now) ∧
    (∀ m ∈ r.matchList,
        hasVulnName s1 m.vulnId ∧ hasPkg s1 m.pkgName m.pkgVersion ∧
        ivPresent s1 (IVData.mk row0.image_id m.vulnId m.pkgName m.pkgVersion m.fixState)) ∧
    s1.scan_metadata.length = s.scan_metadata.length + 1

/-- C1: ingestion is atomic.  A forced failure at any step, and the organic
failure when the Job row is missing, roll back to exactly the pre-call
store (so the job's status and scanned flag are unchanged); otherwise all
writes of steps (a)-(f) are committed together. -/
theorem ingest_atomic (failAt : Option IngestStep) (s : Store) (r : Report)
    (image_name : String) (now : Nat) :
    (failAt.isSome = true → ingest failAt s r image_name now = s) ∧
    (ingest failAt s r image_name now = s ∨
      AllWrites s r image_name now (ingest failAt s r image_name now)) := by
  constructor
  · intro hsome
    rcases failAt with _ | step
    · simp at hsome
    · exact ingest_of_tx_none (ingestTx_injected step s r image_name now)
  · rcases failAt with _ | step
    case some =>
      exact Or.inl (ingest_of_tx_none (ingestTx_injected step s r image_name now))
    case none =>
      cases h : findImage s image_name with
      | none =>
          exact Or.inl (ingest_of_tx_none (ingestTx_none_of_absent none s r image_name now h))
      | some row =>
          right
          have hE := ingest_of_tx_some (ingestTx_success s r image_name now row h)
          refine ⟨row, h, ?_, ?_, ?_⟩
          · intro rw2 hrw2 hname
            rw [hE] at hrw2
            simp only [appendScanMetadata_images, insertIVs_images, insertPkgs_images,
              insertVulns_images] at hrw2
            exact updateImagesSuccess_named s r.imageSize image_name now rw2 hrw2 hname
          · exact ingest_writes_present s r image_name now row h
          · exact ingest_success_meta_length s r image_name now row h

/-- C10: calling the ingestor with a job name that has no `images` row makes
the transaction body raise (the UPDATE returns no row, so
`cur.fetchone()[0]` fails), the transaction is rolled back, and the store
is exactly what it was before the call. -/
theorem ingest_unknown_job_rolls_back (failAt : Option IngestStep) (s : Store) (r : Report)
    (image_name : String) (now : Nat)
    (h : ∀ row ∈ s.images, row.image_name ≠ image_name) :
    ingestTx failAt s r image_name now = none ∧ ingest failAt s r image_name now = s := by
  have hf : findImage s image_name = none := by
    unfold findImage
    rw [List.find?_eq_none]
    intro x hx
    simpa using h x hx
  exact ⟨ingestTx_none_of_absent failAt s r image_name now hf,
         ingest_of_tx_none (ingestTx_none_of_absent failAt s r image_name now hf)⟩

/-! ## Idempotence of ingestion on the normalized tables -/

lemma find?_name_map {f : ImageRow → ImageRow}
    (hf : ∀ r0 : ImageRow, (f r0).image_name = r0.image_name)
    (l : List ImageRow) (n : String) :
    (l.map f).find? (fun r0 => r0.image_name == n) =
      (l.find? (fun r0 => r0.image_name == n)).map f := by
  induction l with
  | nil => rfl
  | cons hd tl ih =>
      rw [List.map_cons]
      have hval : ((f hd).image_name == n) = (hd.image_name == n) := by rw [hf]
      cases hn : (hd.image_name == n) with
      | true => simp [List.find?_cons, hval, hn]
      | false => simp [List.find?_cons, hval, hn, ih]

lemma findImage_ingest_success (s : Store) (r : Report) (image_name : String) (now : Nat)
    (row : ImageRow) (h : findImage s image_name = some row) :
    findImage (ingest none s r image_name now) image_name = some
      { row with image_size := r.imageSize, is_scanned := true,
                 last_scanned := some now, download_status := "success" } := by
  have hE := ingest_of_tx_some (ingestTx_success s r image_name now row h)
  have hname : row.image_name = image_name := by
    have := List.find?_some h
    simpa using this
  unfold findImage at h ⊢
  rw [hE]
  simp only [appendScanMetadata_images, insertIVs_images, insertPkgs_images,
    insertVulns_images]
  show (updateImagesSuccess s r.imageSize image_name now).images.find? _ = _
  unfold updateImagesSuccess
  rw [find?_name_map (fun r0 => by by_cases hc : r0.image_name = image_name <;> simp [hc])
        s.images image_name, h]
  simp [hname]

/-- A second ingestion run against a store that already contains every
vulnerability name, package and join triple of the report leaves the three
normalized tables untouched and appends one more `scan_metadata` row. -/
lemma ingest_noop_run (s1 : Store) (r : Report) (image_name : String) (now2 : Nat)
    (row2 : ImageRow) (h2 : findImage s1 image_name = some row2)
    (hv_all : ∀ m ∈ r.matchList, hasVulnName s1 m.vulnId)
    (hp_all : ∀ m ∈ r.matchList, hasPkg s1 m.pkgName m.pkgVersion)
    (hiv_all : ∀ m ∈ r.matchList,
      ivPresent s1 (IVData.mk row2.image_id m.vulnId m.pkgName m.pkgVersion m.fixState)) :
    (ingest none s1 r image_name now2).vulnerabilities = s1.vulnerabilities ∧
    (ingest none s1 r image_name now2).packages = s1.packages ∧
    (ingest none s1 r image_name now2).image_vulnerabilities = s1.image_vulnerabilities ∧
    (ingest none s1 r image_name now2).scan_metadata.length = s1.scan_metadata.length + 1 := by
  have hE2 := ingest_of_tx_some (ingestTx_success s1 r image_name now2 row2 h2)
  have hT2 : insertVulns (updateImagesSuccess s1 r.imageSize image_name now2)
      (r.matchList.map fun m => (m.vulnId, m.severity)) =
      updateImagesSuccess s1 r.imageSize image_name now2 := by
    apply insertVulns_noop
    intro p hp
    obtain ⟨m, hm, hfe⟩ := List.mem_map.mp hp
    subst hfe
    exact hasVulnName_transfer
      (updateImagesSuccess_vulnerabilities s1 r.imageSize image_name now2).symm
      (hv_all m hm)
  have hT3 : insertPkgs (updateImagesSuccess s1 r.imageSize image_name now2)
      (r.matchList.map fun m => (m.pkgName, m.pkgVersion)) =
      updateImagesSuccess s1 r.imageSize image_name now2 := by
    apply insertPkgs_noop
    intro p hp
    obtain ⟨m, hm, hfe⟩ := List.mem_map.mp hp
    subst hfe
    exact hasPkg_transfer
      (updateImagesSuccess_packages s1 r.imageSize image_name now2).symm
      (hp_all m hm)
  have hT4 : insertIVs (updateImagesSuccess s1 r.imageSize image_name now2)
      (r.matchList.map fun m =>
        IVData.mk row2.image_id m.vulnId m.pkgName m.pkgVersion m.fixState) =
      updateImagesSuccess s1 r.imageSize image_name now2 := by
    apply insertIVs_noop
    intro iv hiv
    obtain ⟨m, hm, hfe⟩ := List.mem_map.mp hiv
    subst hfe
    exact ivPresent_transfer
      (updateImagesSuccess_vulnerabilities s1 r.imageSize image_name now2).symm
      (updateImagesSuccess_packages s1 r.imageSize image_name now2).symm
      (updateImagesSuccess_image_vulnerabilities s1 r.imageSize image_name now2).symm
      (hiv_all m hm)
  rw [hE2, hT2, hT3, hT4]
  refine ⟨?_, ?_, ?_, ?_⟩ <;> simp [appendScanMetadata]

/-- C2: ingestion is idempotent on the normalized tables.  Running the same
report for the same job twice leaves `vulnerabilities`, `packages` and
`image_vulnerabilities` exactly as after the first run, while each
successful run appends exactly one `scan_metadata` row. -/
theorem ingest_idempotent_on_normalized_tables (s : Store) (r : Report)
    (image_name : String) (now1 now2 : Nat) :
    ((ingest none (ingest none s r image_name now1) r image_name now2).vulnerabilities =
        (ingest none s r image_name now1).vulnerabilities ∧
      (ingest none (ingest none s r image_name now1) r image_name now2).packages =
        (ingest none s r image_name now1).packages ∧
      (ingest none (ingest none s r image_name now1) r image_name now2).image_vulnerabilities =
        (ingest none s r image_name now1).image_vulnerabilities) ∧
    ((findImage s image_name).isSome = true →
      (ingest none s r image_name now1).scan_metadata.length =
        s.scan_metadata.length + 1 ∧
      (ingest none (ingest none s r image_name now1) r image_name now2).scan_metadata.length =
        (ingest none s r image_name now1).scan_metadata.length + 1) := by
  cases h : findImage s image_name with
  | none =>
      have h1 : ingest none s r image_name now1 = s :=
        ingest_of_tx_none (ingestTx_none_of_absent none s r image_name now1 h)
      have h2 : ingest none s r image_name now2 = s :=
        ingest_of_tx_none (ingestTx_none_of_absent none s r image_name now2 h)
      rw [h1, h2]
      exact ⟨⟨rfl, rfl, rfl⟩, fun hs => by simp at hs⟩
  | some row =>
      have hpresent := ingest_writes_present s r image_name now1 row h
      have h2 := findImage_ingest_success s r image_name now1 row h
      have core := ingest_noop_run (ingest none s r image_name now1) r image_name now2 _ h2
        (fun m hm => (hpresent m hm).1)
        (fun m hm => (hpresent m hm).2.1)
        (fun m hm => (hpresent m hm).2.2)
      exact ⟨⟨core.1, core.2.1, core.2.2.1⟩,
             fun _ => ⟨ingest_success_meta_length s r image_name now1 row h, core.2.2.2⟩⟩

/-! ## The Job Claimer: selection, update and tie behaviour -/

lemma setInProgress_images_mem (s : Store) (n : String) :
    ∀ row2 ∈ (setInProgress s n).images,
      (row2.image_name = n → row2.download_status = "in_progress") ∧
      (row2.image_name ≠ n → row2 ∈ s.images) := by
  intro row2 hrow2
  simp only [setInProgress, List.mem_map] at hrow2
  obtain ⟨orig, horig, hfe⟩ := hrow2
  by_cases hn : orig.image_name = n
  · rw [if_pos hn] at hfe
    subst hfe
    exact ⟨fun _ => rfl, fun hne => absurd hn hne⟩
  · rw [if_neg hn] at hfe
    subst hfe
    exact ⟨fun heq => absurd heq hn, fun _ => horig⟩

lemma claimStep_claimNextFun (s : Store) : ClaimStep s (claimNextFun s) := by
  unfold claimNextFun
  cases heq : (s.images.filter (fun r => eligible r)).argmax coalescedPullCount with
  | none =>
      right
      refine ⟨?_, rfl⟩
      intro row hrow
      have hnil := List.argmax_eq_none.mp heq
      rw [List.filter_eq_nil] at hnil
      have := hnil row hrow
      simpa using this
  | some row =>
      left
      have hmem0 : row ∈ s.images.filter (fun r => eligible r) :=
        List.argmax_mem (Option.mem_def.mpr heq)
      have hmem := List.mem_filter.mp hmem0
      refine ⟨row, hmem.1, hmem.2, ?_, rfl⟩
      intro other hother helig
      exact List.le_of_mem_argmax (List.mem_filter.mpr ⟨hother, helig⟩)
        (Option.mem_def.mpr heq)

/-- C3: the claim operation always has an outcome; a `None` outcome changes
nothing and occurs exactly when no unscanned pending job exists; a `Some`
outcome names an unscanned pending job of maximal coalesced pull count and
the same statement marks exactly the rows of that name `in_progress`,
leaving every other row untouched. -/
theorem claimNext_selects_max_pending :
    (∀ s : Store, ClaimStep s (claimNextFun s)) ∧
    (∀ (s : Store) (out : Option String × Store), ClaimStep s out →
      (out.1 = none → out.2 = s ∧
        ∀ row ∈ s.images, ¬(row.is_scanned = false ∧ row.download_status = "pending")) ∧
      (∀ n, out.1 = some n →
        ∃ row ∈ s.images, row.image_name = n ∧ row.is_scanned = false ∧
          row.download_status = "pending" ∧
          (∀ other ∈ s.images, eligible other = true →
            coalescedPullCount other ≤ coalescedPullCount row) ∧
          out.2 = setInProgress s n ∧
          (∀ row2 ∈ (setInProgress s n).images,
            (row2.image_name = n → row2.download_status = "in_progress") ∧
            (row2.image_name ≠ n → row2 ∈ s.images)))) := by
  refine ⟨claimStep_claimNextFun, ?_⟩
  intro s out hcs
  rcases hcs with ⟨row, hmem, helig, hmax, hout⟩ | ⟨hall, hout⟩
  · subst hout
    constructor
    · intro hnone
      cases hnone
    · intro n hsome
      have hn : row.image_name = n := by
        simpa using hsome
      subst hn
      have he2 := helig
      simp only [eligible, Bool.and_eq_true, Bool.not_eq_true', beq_iff_eq] at he2
      exact ⟨row, hmem, rfl, he2.1, he2.2, hmax, rfl,
             setInProgress_images_mem s row.image_name⟩
  · subst hout
    constructor
    · intro _
      refine ⟨rfl, ?_⟩
      intro row hrow hcon
      have helig : eligible row = true := by
        simp [eligible, hcon.1, hcon.2]
      rw [hall row hrow] at helig
      cases helig
    · intro n hsome
      cases hsome

/-- The store of the spec's priority example: three pending, unscanned jobs
with pull counts 5, 9 and 2. -/
def prioStore : Store :=
  { images := [⟨1, "a", some 5, false, "pending", none, none⟩,
               ⟨2, "b", some 9, false, "pending", none, none⟩,
               ⟨3, "c", some 2, false, "pending", none, none⟩],
    vulnerabilities := [], packages := [], image_vulnerabilities := [],
    scan_metadata := [], nextVulnId := 0, nextPkgId := 0 }

/-- Witness for C3: on the spec's example backlog [5, 9, 2] the claim
returns the hint-9 job and marks it in progress. -/
theorem claimNext_selects_max_pending_witness :
    ∃ row ∈ prioStore.images, row.image_name = "b" ∧ row.is_scanned = false ∧
      row.download_status = "pending" ∧
      (∀ other ∈ prioStore.images, eligible other = true →
        coalescedPullCount other ≤ coalescedPullCount row) ∧
      (some "b", setInProgress prioStore "b").2 = setInProgress prioStore "b" ∧
      (∀ row2 ∈ (setInProgress prioStore "b").images,
        (row2.image_name = "b" → row2.download_status = "in_progress") ∧
        (row2.image_name ≠ "b" → row2 ∈ prioStore.images)) :=
  ((claimNext_selects_max_pending.2 prioStore
      (some "b", setInProgress prioStore "b") (by decide)).2) "b" rfl

/-- A store with two eligible jobs tied on the maximal pull count. -/
def tieStore : Store :=
  { images := [⟨1, "a", some 5, false, "pending", none, none⟩,
               ⟨2, "b", some 5, false, "pending", none, none⟩],
    vulnerabilities := [], packages := [], image_vulnerabilities := [],
    scan_metadata := [], nextVulnId := 0, nextPkgId := 0 }

/-- C9 counterexample: the claim query orders by `COALESCE(pull_count,0)
DESC` alone, with no secondary sort key, so on a store with two eligible
jobs tied at the maximal pull count both outcomes satisfy the statement's
semantics: the returned name is not determined by the store contents. -/
theorem claimNext_tie_not_deterministic :
    ClaimStep tieStore (some "a", setInProgress tieStore "a") ∧
    ClaimStep tieStore (some "b", setInProgress tieStore "b") ∧
    ("a" : String) ≠ "b" :=
  ⟨by decide, by decide, by decide⟩

/-- C9 amended: two claim outcomes against identical store contents agree on
whether a job is returned, and any two returned jobs carry the same
(maximal) coalesced pull count; the choice among tied jobs is arbitrary. -/
theorem claimNext_deterministic_up_to_priority (s : Store)
    (o1 o2 : Option String × Store) (h1 : ClaimStep s o1) (h2 : ClaimStep s o2) :
    (o1.1 = none ↔ o2.1 = none) ∧
    (∀ n1 n2, o1.1 = some n1 → o2.1 = some n2 →
      ∃ r1 ∈ s.images, ∃ r2 ∈ s.images, r1.image_name = n1 ∧ r2.image_name = n2 ∧
        coalescedPullCount r1 = coalescedPullCount r2) := by
  rcases h1 with ⟨r1, hm1, he1, hmax1, ho1⟩ | ⟨hall1, ho1⟩ <;>
    rcases h2 with ⟨r2, hm2, he2, hmax2, ho2⟩ | ⟨hall2, ho2⟩
  · subst ho1
    subst ho2
    refine ⟨by simp, ?_⟩
    intro n1 n2 hn1 hn2
    refine ⟨r1, hm1, r2, hm2, by simpa using hn1, by simpa using hn2,
      le_antisymm (hmax2 r1 hm1 he1) (hmax1 r2 hm2 he2)⟩
  · exact absurd he1 (by simp [hall2 r1 hm1])
  · exact absurd he2 (by simp [hall1 r2 hm2])
  · subst ho1
    subst ho2
    exact ⟨Iff.rfl, fun n1 n2 hn1 => by cases hn1⟩

/-- Witness for the amended C9: on the tied store both outcomes return jobs
of equal pull count. -/
theorem claimNext_deterministic_up_to_priority_witness :
    ((some "a" : Option String) = none ↔ (some "b" : Option String) = none) ∧
    (∀ n1 n2, (some "a" : Option String) = some n1 →
      (some "b" : Option String) = some n2 →
      ∃ r1 ∈ tieStore.images, ∃ r2 ∈ tieStore.images,
        r1.image_name = n1 ∧ r2.image_name = n2 ∧
        coalescedPullCount r1 = coalescedPullCount r2) := by
  have h := claimNext_deterministic_up_to_priority tieStore
    (some "a", setInProgress tieStore "a") (some "b", setInProgress tieStore "b")
    (by decide) (by decide)
  exact h

/-! ## Sequences of claims: at-most-once -/

/-- The number of rows the claim query's filter accepts. -/
def eligCount (s : Store) : Nat :=
  s.images.countP (fun r => eligible r)

/-- No row of this name is eligible for claiming. -/
def noEligibleNamed (s : Store) (n : String) : Prop :=
  ∀ row ∈ s.images, row.image_name = n → eligible row = false

lemma claimStep_none_elim {s s2 : Store} (h : ClaimStep s (none, s2)) :
    s2 = s ∧ ∀ row ∈ s.images, eligible row = false := by
  rcases h with ⟨row, hm, he, hx, hout⟩ | ⟨hall, hout⟩
  · simp at hout
  · simp only [Prod.mk.injEq] at hout
    exact ⟨hout.2, hall⟩

lemma claimStep_some_elim {s s2 : Store} {n : String} (h : ClaimStep s (some n, s2)) :
    (∃ row ∈ s.images, row.image_name = n ∧ eligible row = true) ∧
    s2 = setInProgress s n := by
  rcases h with ⟨row, hm, he, hx, hout⟩ | ⟨hall, hout⟩
  · simp only [Prod.mk.injEq, Option.some.injEq] at hout
    obtain ⟨hn, hs⟩ := hout
    subst hn
    exact ⟨⟨row, hm, rfl, he⟩, hs⟩
  · simp at hout

lemma setInProgress_names (s : Store) (n : String) :
    (setInProgress s n).images.map ImageRow.image_name =
      s.images.map ImageRow.image_name := by
  simp only [setInProgress, List.map_map]
  apply List.map_congr_left
  intro row hrow
  by_cases hn : row.image_name = n <;> simp [hn]

lemma noEligibleNamed_setInProgress_self (s : Store) (n : String) :
    noEligibleNamed (setInProgress s n) n := by
  intro row2 hrow2 hname
  simp only [setInProgress, List.mem_map] at hrow2
  obtain ⟨orig, horig, hfe⟩ := hrow2
  by_cases hn : orig.image_name = n
  · rw [if_pos hn] at hfe
    subst hfe
    simp [eligible]
  · rw [if_neg hn] at hfe
    subst hfe
    exact absurd hname hn

lemma noEligibleNamed_mono_setInProgress (s : Store) (n m : String)
    (h : noEligibleNamed s m) : noEligibleNamed (setInProgress s n) m := by
  intro row2 hrow2 hname
  simp only [setInProgress, List.mem_map] at hrow2
  obtain ⟨orig, horig, hfe⟩ := hrow2
  by_cases hn : orig.image_name = n
  · rw [if_pos hn] at hfe
    subst hfe
    simp [eligible]
  · rw [if_neg hn] at hfe
    subst hfe
    exact h orig horig hname

lemma countP_setInProgress (l : List ImageRow) (n : String)
    (hnd : (l.map ImageRow.image_name).Nodup)
    (hex : ∃ row ∈ l, row.image_name = n ∧ eligible row = true) :
    (l.map (fun row => if row.image_name = n then
        { row with download_status := "in_progress" } else row)).countP
      (fun r => eligible r) + 1 = l.countP (fun r => eligible r) := by
  induction l with
  | nil =>
      obtain ⟨row, hm, _⟩ := hex
      cases hm
  | cons hd tl ih =>
      rw [List.map_cons] at hnd
      obtain ⟨hnotmem, hnd2⟩ := List.nodup_cons.mp hnd
      rw [List.map_cons, List.countP_cons, List.countP_cons]
      by_cases hn : hd.image_name = n
      · rw [if_pos hn]
        have hnotin : ∀ row ∈ tl, row.image_name ≠ n := by
          intro row hrow heq
          have hmm : hd.image_name ∈ tl.map ImageRow.image_name := by
            rw [hn, ← heq]
            exact List.mem_map_of_mem _ hrow
          exact hnotmem hmm
        have htl : tl.map (fun row => if row.image_name = n then
            { row with download_status := "in_progress" } else row) = tl := by
          have hcg : ∀ row ∈ tl, (if row.image_name = n then
              { row with download_status := "in_progress" } else row) = id row :=
            fun row hrow => if_neg (hnotin row hrow)
          rw [List.map_congr_left hcg, List.map_id]
        have hhd : eligible hd = true := by
          obtain ⟨row, hm, hname, helig⟩ := hex
          rcases List.mem_cons.mp hm with hcase | hcase
          · rw [← hcase]
            exact helig
          · exact absurd hname (hnotin row hcase)
        rw [htl, hhd]
        simp [eligible]
      · rw [if_neg hn]
        have hex2 : ∃ row ∈ tl, row.image_name = n ∧ eligible row = true := by
          obtain ⟨row, hm, hname, helig⟩ := hex
          rcases List.mem_cons.mp hm with hcase | hcase
          · rw [← hcase] at hn
            exact absurd hname hn
          · exact ⟨row, hcase, hname, helig⟩
        have := ih hnd2 hex2
        omega

lemma eligCount_claim (s : Store) (n : String)
    (hnd : (s.images.map ImageRow.image_name).Nodup)
    (hex : ∃ row ∈ s.images, row.image_name = n ∧ eligible row = true) :
    eligCount (setInProgress s n) + 1 = eligCount s :=
  countP_setInProgress s.images n hnd hex

lemma eligCount_zero (s : Store) (h : ∀ row ∈ s.images, eligible row = false) :
    eligCount s = 0 := by
  rw [eligCount, List.countP_eq_zero]
  intro row hrow
  simp [h row hrow]

lemma claimSeq_main {s s2 : Store} {results : List (Option String)}
    (h : ClaimSeq s results s2)
    (hnd : (s.images.map ImageRow.image_name).Nodup) :
    (results.filterMap id).length = min (eligCount s) results.length ∧
    (results.filterMap id).Nodup ∧
    (∀ m, noEligibleNamed s m → noEligibleNamed s2 m) ∧
    (∀ m ∈ results.filterMap id, ¬ noEligibleNamed s m) := by
  induction h with
  | nil s0 =>
      exact ⟨by simp, List.nodup_nil, fun m hm => hm, by simp⟩
  | @cons t t1 t2 r rs hstep hrest ih =>
      cases r with
      | none =>
          obtain ⟨hs1, hall⟩ := claimStep_none_elim hstep
          subst hs1
          have h0 : eligCount t1 = 0 := eligCount_zero t1 hall
          obtain ⟨ih1, ih2, ih3, ih4⟩ := ih hnd
          rw [show List.filterMap id (none :: rs) = List.filterMap id rs from rfl]
          refine ⟨?_, ih2, ih3, ih4⟩
          rw [List.length_cons, h0]
          rw [h0] at ih1
          omega
      | some n =>
          obtain ⟨hex, hs1⟩ := claimStep_some_elim hstep
          subst hs1
          have hnd1 : ((setInProgress t n).images.map ImageRow.image_name).Nodup := by
            rw [setInProgress_names]
            exact hnd
          obtain ⟨ih1, ih2, ih3, ih4⟩ := ih hnd1
          have hcount := eligCount_claim t n hnd hex
          have hself := noEligibleNamed_setInProgress_self t n
          rw [show List.filterMap id (some n :: rs) = n :: List.filterMap id rs from rfl]
          refine ⟨?_, ?_, ?_, ?_⟩
          · rw [List.length_cons, List.length_cons]
            omega
          · refine List.nodup_cons.mpr ⟨?_, ih2⟩
            intro hin
            exact ih4 n hin hself
          · intro m hm
            exact ih3 m (noEligibleNamed_mono_setInProgress t n m hm)
          · rintro m hm
            rcases List.mem_cons.mp hm with rfl | hmm
            · intro hno
              obtain ⟨row, hmem, hname, helig⟩ := hex
              rw [hno row hmem hname] at helig
              cases helig
            · intro hno
              exact ih4 m hmm (noEligibleNamed_mono_setInProgress t n m hno)

lemma length_filterMap_id_add_count_none (results : List (Option String)) :
    (results.filterMap id).length + results.count none = results.length := by
  induction results with
  | nil => rfl
  | cons r rs ih =>
      cases r with
      | none =>
          rw [show List.filterMap id (none :: rs) = List.filterMap id rs from rfl,
              List.length_cons]
          have hc : (none :: rs).count (none : Option String) = rs.count none + 1 := by
            simp [List.count_cons]
          rw [hc]
          omega
      | some a =>
          rw [show List.filterMap id (some a :: rs) = a :: List.filterMap id rs from rfl,
              List.length_cons, List.length_cons]
          have hc : (some a :: rs).count (none : Option String) = rs.count none := by
            simp [List.count_cons]
          rw [hc]
          omega

/-- C8: a serialization of N concurrent claim calls against a backlog of
M eligible jobs (M < N, job names unique) yields exactly M returned names,
pairwise distinct, and N - M `None` results; no name is returned twice. -/
theorem concurrent_claims_at_most_once (s s2 : Store) (results : List (Option String))
    (h : ClaimSeq s results s2)
    (hnd : (s.images.map ImageRow.image_name).Nodup)
    (hM : eligCount s < results.length) :
    (results.filterMap id).length = eligCount s ∧
    (results.filterMap id).Nodup ∧
    results.count none = results.length - eligCount s := by
  obtain ⟨ha, hb, _, _⟩ := claimSeq_main h hnd
  rw [min_eq_left (le_of_lt hM)] at ha
  have hc := length_filterMap_id_add_count_none results
  exact ⟨ha, hb, by omega⟩

/-- A backlog with exactly one eligible job, for the C8 witness. -/
def oneJobStore : Store :=
  { images := [⟨1, "a", some 5, false, "pending", none, none⟩,
               ⟨2, "b", some 7, true, "success", some 10, some 0⟩],
    vulnerabilities := [], packages := [], image_vulnerabilities := [],
    scan_metadata := [], nextVulnId := 0, nextPkgId := 0 }

/-- Witness for C8: two claim calls against a one-job backlog produce one
distinct name and one `None`. -/
theorem concurrent_claims_at_most_once_witness :
    (([some "a", none] : List (Option String)).filterMap id).length = eligCount oneJobStore ∧
    (([some "a", none] : List (Option String)).filterMap id).Nodup ∧
    ([some "a", none] : List (Option String)).count none = 2 - eligCount oneJobStore :=
  concurrent_claims_at_most_once oneJobStore (setInProgress oneJobStore "a")
    [some "a", none]
    (ClaimSeq.cons
      (by decide : ClaimStep oneJobStore (some "a", setInProgress oneJobStore "a"))
      (ClaimSeq.cons
        (by decide : ClaimStep (setInProgress oneJobStore "a")
          (none, setInProgress oneJobStore "a"))
        (ClaimSeq.nil (setInProgress oneJobStore "a"))))
    (by decide) (by decide)

/-! ## The Pipeline Executor: terminal status classification -/

lemma update_download_status_sets (s : Store) (n st : String) (now : Nat)
    (h : ∃ row ∈ s.images, row.image_name = n) :
    ∃ row ∈ (update_download_status s n st now).images,
      row.image_name = n ∧ row.download_status = st ∧ row.is_scanned = true := by
  obtain ⟨row, hm, hn⟩ := h
  refine ⟨{ row with download_status := st, is_scanned := true, last_scanned := some now },
    ?_, hn, rfl, rfl⟩
  simp only [update_download_status, List.mem_map]
  exact ⟨row, hm, by rw [if_pos hn]⟩

/-- C5: for a claimed job, an acquire failure whose stderr contains
"manifest unknown" records `manifest_unknown`; any other acquire failure
records `download_failed`; a successful acquire with a scan failure records
`scan_failed`.  In each case the job's scanned flag is set, and the action
trace shows that no scan or ingestion step started after the failing step
(`[.pullA]` on acquire failure; `[.pullA, .scanA, .deleteA]`, with no
ingestion, on scan failure). -/
theorem terminal_status_classification (image_name : String) (env : Env) (s : Store)
    (hrow : ∃ row ∈ s.images, row.image_name = image_name)
    (hdb : env.updateStatusFails = false) :
    (∀ stderr, env.pullOutcome = .cpe stderr →
      containsSubstr stderr "manifest unknown" = true →
      process_container (some image_name) env s =
        .ok (true, update_download_status s image_name "manifest_unknown" env.now,
             [.pullA]) ∧
      ∃ row ∈ (update_download_status s image_name "manifest_unknown" env.now).images,
        row.image_name = image_name ∧ row.download_status = "manifest_unknown" ∧
        row.is_scanned = true) ∧
    (∀ stderr, env.pullOutcome = .cpe stderr →
      containsSubstr stderr "manifest unknown" = false →
      process_container (some image_name) env s =
        .ok (true, update_download_status s image_name "download_failed" env.now,
             [.pullA]) ∧
      ∃ row ∈ (update_download_status s image_name "download_failed" env.now).images,
        row.image_name = image_name ∧ row.download_status = "download_failed" ∧
        row.is_scanned = true) ∧
    (env.pullOutcome = .ok → env.scanOutcome = .cpe → env.deleteOutcome ≠ .exn →
      process_container (some image_name) env s =
        .ok (true, update_download_status s image_name "scan_failed" env.now,
             [.pullA, .scanA, .deleteA]) ∧
      ∃ row ∈ (update_download_status s image_name "scan_failed" env.now).images,
        row.image_name = image_name ∧ row.download_status = "scan_failed" ∧
        row.is_scanned = true) := by
  refine ⟨?_, ?_, ?_⟩
  · intro stderr hp hsub
    refine ⟨?_, update_download_status_sets s image_name "manifest_unknown" env.now hrow⟩
    simp [process_container, pull_container, hp, hdb, hsub]
  · intro stderr hp hsub
    refine ⟨?_, update_download_status_sets s image_name "download_failed" env.now hrow⟩
    simp [process_container, pull_container, hp, hdb, hsub]
  · intro hp hs hd
    refine ⟨?_, update_download_status_sets s image_name "scan_failed" env.now hrow⟩
    cases hdel : env.deleteOutcome with
    | exn => exact absurd hdel hd
    | ok =>
        simp [process_container, pull_container, scan_container, delete_container,
          hp, hs, hdel, hdb]
    | cpe =>
        simp [process_container, pull_container, scan_container, delete_container,
          hp, hs, hdel, hdb]

/-! ## The Worker Pool Orchestrator: round-based termination -/

lemma poolLoop_eq_some (rounds : Nat → List Bool) :
    ∀ (fuel start k : Nat), poolLoop rounds start fuel = some k ↔
      (start ≤ k ∧ k < start + fuel ∧ roundAllNoJob (rounds k) = true ∧
       ∀ j, start ≤ j → j < k → roundAllNoJob (rounds j) = false) := by
  intro fuel
  induction fuel with
  | zero =>
      intro start k
      simp only [poolLoop]
      constructor
      · intro h
        cases h
      · rintro ⟨h1, h2, _⟩
        omega
  | succ fuel ih =>
      intro start k
      simp only [poolLoop]
      by_cases hr : roundAllNoJob (rounds start) = true
      · rw [if_pos hr]
        constructor
        · intro h
          have hk : start = k := by
            simpa using h
          subst hk
          exact ⟨le_refl _, by omega, hr, fun j hj1 hj2 => by omega⟩
        · rintro ⟨h1, h2, h3, h4⟩
          by_cases hk : k = start
          · subst hk
            rfl
          · have hlt : start < k := lt_of_le_of_ne h1 (Ne.symm hk)
            have := h4 start (le_refl _) hlt
            rw [hr] at this
            cases this
      · rw [if_neg hr]
        have hr2 : roundAllNoJob (rounds start) = false := by
          simpa using hr
        rw [ih (start + 1) k]
        constructor
        · rintro ⟨h1, h2, h3, h4⟩
          refine ⟨by omega, by omega, h3, ?_⟩
          intro j hj1 hj2
          by_cases hj : j = start
          · subst hj
            exact hr2
          · exact h4 j (by omega) hj2
        · rintro ⟨h1, h2, h3, h4⟩
          refine ⟨?_, by omega, h3, fun j hj1 hj2 => h4 j (by omega) hj2⟩
          rcases Nat.lt_or_ge k (start + 1) with hlt | hge
          · have hk : k = start := by omega
            subst hk
            rw [h3] at hr2
            cases hr2
          · exact hge

lemma pull_container_cases (env : Env) (s : Store) (n : String) :
    (∃ e, pull_container env s n = .error e) ∨
    pull_container env s n = .ok (true, s) ∨
    (∃ s1, pull_container env s n = .ok (false, s1)) := by
  unfold pull_container
  cases env.pullOutcome with
  | ok => exact Or.inr (Or.inl rfl)
  | exn => exact Or.inl ⟨_, rfl⟩
  | cpe stderr =>
      cases hu : env.updateStatusFails with
      | true => exact Or.inl ⟨Exn.fromStatusUpdate, by simp⟩
      | false =>
          by_cases hc : containsSubstr stderr "manifest unknown" = true
          · exact Or.inr (Or.inr
              ⟨update_download_status s n "manifest_unknown" env.now, by simp [hc]⟩)
          · exact Or.inr (Or.inr
              ⟨update_download_status s n "download_failed" env.now, by simp [hc]⟩)

/-- C6: the `while True` loop of `main` stops with final round index `k`
exactly when round `k` is the first in which every worker's
`process_container` returned `False`; `roundAllNoJob` (the loop's
`not any(...)` test) holds exactly when every worker of the round returned
`False`; and `process_container` returns `True` in every branch that
returns at all after a job was claimed, whatever terminal or stuck status
the job reached. -/
theorem pool_terminates_on_all_nojob_round :
    (∀ (rounds : Nat → List Bool) (fuel k : Nat),
      poolLoop rounds 0 fuel = some k ↔
        (k < fuel ∧ roundAllNoJob (rounds k) = true ∧
         ∀ j < k, roundAllNoJob (rounds j) = false)) ∧
    (∀ round : List Bool, roundAllNoJob round = true ↔ ∀ b ∈ round, b = false) ∧
    (∀ (image_name : String) (env : Env) (s : Store) (b : Bool) (s2 : Store)
      (tr : List Action),
      process_container (some image_name) env s = .ok (b, s2, tr) → b = true) := by
  refine ⟨?_, ?_, ?_⟩
  · intro rounds fuel k
    rw [poolLoop_eq_some rounds fuel 0 k]
    constructor
    · rintro ⟨h1, h2, h3, h4⟩
      exact ⟨by omega, h3, fun j hj => h4 j (by omega) hj⟩
    · rintro ⟨h1, h2, h3⟩
      exact ⟨Nat.zero_le _, by omega, h2, fun j hj1 hj2 => h3 j hj2⟩
  · intro round
    simp [roundAllNoJob, List.any_eq_true]
  · intro image_name env s b s2 tr h
    rcases pull_container_cases env s image_name with ⟨e, hpc⟩ | hpc | ⟨s1, hpc⟩
    · simp only [process_container, hpc] at h
      cases h
    · simp only [process_container, hpc] at h
      cases hs : env.scanOutcome with
      | badJson =>
          simp only [scan_container, hs] at h
          cases h
      | exn =>
          simp only [scan_container, hs] at h
          cases h
      | report r =>
          simp only [scan_container, hs] at h
          cases hd : env.deleteOutcome with
          | exn =>
              simp only [delete_container, hd] at h
              cases h
          | ok =>
              simp only [delete_container, hd] at h
              cases hpar : parse_and_upload_scan_result env s r image_name with
              | error e =>
                  rw [hpar] at h
                  cases h
              | ok s3 =>
                  rw [hpar] at h
                  injection h with h2
                  injection h2 with hb hrest
                  exact hb.symm
          | cpe =>
              simp only [delete_container, hd] at h
              cases hpar : parse_and_upload_scan_result env s r image_name with
              | error e =>
                  rw [hpar] at h
                  cases h
              | ok s3 =>
                  rw [hpar] at h
                  injection h with h2
                  injection h2 with hb hrest
                  exact hb.symm
      | cpe =>
          simp only [scan_container, hs] at h
          cases hd : env.deleteOutcome with
          | exn =>
              simp only [delete_container, hd] at h
              cases h
          | ok =>
              simp only [delete_container, hd] at h
              cases hu : env.updateStatusFails with
              | true =>
                  rw [if_pos hu] at h
                  cases h
              | false =>
                  rw [if_neg (by simp [hu])] at h
                  injection h with h2
                  injection h2 with hb hrest
                  exact hb.symm
          | cpe =>
              simp only [delete_container, hd] at h
              cases hu : env.updateStatusFails with
              | true =>
                  rw [if_pos hu] at h
                  cases h
              | false =>
                  rw [if_neg (by simp [hu])] at h
                  injection h with h2
                  injection h2 with hb hrest
                  exact hb.symm
    · simp only [process_container, hpc] at h
      injection h with h2
      injection h2 with hb hrest
      exact hb.symm

/-! ## Error containment and propagation out of process_container -/

/-- A store with no rows at all. -/
def emptyStore : Store :=
  { images := [], vulnerabilities := [], packages := [], image_vulnerabilities := [],
    scan_metadata := [], nextVulnId := 0, nextPkgId := 0 }

/-- C7 counterexample: three failures arising in the scan, status-recording
and ingestion steps escape `process_container` as exceptions.  A scanner
run that exits 0 but prints unparseable JSON raises `JSONDecodeError`
inside `scan_container`'s `try`, which catches only `CalledProcessError`;
a Job Store error inside `update_download_status` while recording a pull
failure propagates out of `pull_container`; and a Job Store error in the
`psycopg2.connect` that `parse_and_upload_scan_result` performs before
entering its `try` block propagates out of the ingestion step, because
that call sits outside the `try`.  `process_container` has no handler, so
all three terminate the worker. -/
theorem pipeline_exception_escapes :
    process_container (some "a")
        { pullOutcome := .ok, scanOutcome := .badJson, deleteOutcome := .ok,
          updateStatusFails := false, ingestConnectFails := false,
          ingestFail := none, now := 0 } oneJobStore =
      .error .fromScan ∧
    process_container (some "a")
        { pullOutcome := .cpe "network timeout", scanOutcome := .cpe,
          deleteOutcome := .ok, updateStatusFails := true,
          ingestConnectFails := false, ingestFail := none, now := 0 } oneJobStore =
      .error .fromStatusUpdate ∧
    process_container (some "a")
        { pullOutcome := .ok,
          scanOutcome := .report { imageSize := some 1, matchList := [] },
          deleteOutcome := .ok, updateStatusFails := false,
          ingestConnectFails := true, ingestFail := none, now := 0 } oneJobStore =
      .error .fromIngestConnect :=
  ⟨rfl, rfl, rfl⟩

/-- C7 amended: failures that the code does catch never escape: tool
failures surfaced as `CalledProcessError` in acquire, scan and cleanup,
and every failure raised inside the ingestion transaction body (the `try`
of `parse_and_upload_scan_result` catches all exceptions and rolls back)
are contained, so `process_container` returns normally whatever
`ingestFail` is; but a scan-step `JSONDecodeError`, a
non-`CalledProcessError` from a tool, a Job Store failure while recording
a failure status, or a Job Store failure in the ingestor's own
`psycopg2.connect` — which sits outside its `try` — does propagate. -/
theorem pipeline_contains_tool_and_ingest_errors (image_name : String) (env : Env)
    (s : Store)
    (hpull : env.pullOutcome ≠ .exn)
    (hbad : env.scanOutcome ≠ .badJson)
    (hsexn : env.scanOutcome ≠ .exn)
    (hdel : env.deleteOutcome ≠ .exn)
    (hdb : env.updateStatusFails = false)
    (hic : env.ingestConnectFails = false) :
    ∃ b s2 tr, process_container (some image_name) env s = .ok (b, s2, tr) := by
  cases hp : env.pullOutcome with
  | exn => exact absurd hp hpull
  | cpe stderr =>
      by_cases hc : containsSubstr stderr "manifest unknown" = true
      · exact ⟨true, update_download_status s image_name "manifest_unknown" env.now,
          [.pullA], by simp [process_container, pull_container, hp, hdb, hc]⟩
      · exact ⟨true, update_download_status s image_name "download_failed" env.now,
          [.pullA], by simp [process_container, pull_container, hp, hdb, hc]⟩
  | ok =>
      cases hs : env.scanOutcome with
      | badJson => exact absurd hs hbad
      | exn => exact absurd hs hsexn
      | report r =>
          cases hd : env.deleteOutcome with
          | exn => exact absurd hd hdel
          | ok =>
              exact ⟨true, ingest env.ingestFail s r image_name env.now,
                [.pullA, .scanA, .deleteA, .ingestA],
                by simp [process_container, pull_container, scan_container,
                  delete_container, parse_and_upload_scan_result, hp, hs, hd, hic]⟩
          | cpe =>
              exact ⟨true, ingest env.ingestFail s r image_name env.now,
                [.pullA, .scanA, .deleteA, .ingestA],
                by simp [process_container, pull_container, scan_container,
                  delete_container, parse_and_upload_scan_result, hp, hs, hd, hic]⟩
      | cpe =>
          cases hd : env.deleteOutcome with
          | exn => exact absurd hd hdel
          | ok =>
              exact ⟨true, update_download_status s image_name "scan_failed" env.now,
                [.pullA, .scanA, .deleteA],
                by simp [process_container, pull_container, scan_container,
                  delete_container, hp, hs, hd, hdb]⟩
          | cpe =>
              exact ⟨true, update_download_status s image_name "scan_failed" env.now,
                [.pullA, .scanA, .deleteA],
                by simp [process_container, pull_container, scan_container,
                  delete_container, hp, hs, hd, hdb]⟩

/-- Witness for the amended C7: a successful acquire and scan with a
cleanup tool failure and an injected mid-transaction ingestion failure
(caught and rolled back inside the try block) still returns normally. -/
theorem pipeline_contains_errors_witness :
    ∃ b s2 tr, process_container (some "a")
      { pullOutcome := .ok,
        scanOutcome := .report { imageSize := some 1, matchList := [] },
        deleteOutcome := .cpe, updateStatusFails := false,
        ingestConnectFails := false, ingestFail := some .insertMetaStep,
        now := 4 } oneJobStore =
      .ok (b, s2, tr) :=
  pipeline_contains_tool_and_ingest_errors "a"
    { pullOutcome := .ok,
      scanOutcome := .report { imageSize := some 1, matchList := [] },
      deleteOutcome := .cpe, updateStatusFails := false,
      ingestConnectFails := false, ingestFail := some .insertMetaStep,
      now := 4 } oneJobStore
    (by decide) (by decide) (by decide) (by decide) rfl rfl

/-! ## Remaining witnesses -/

/-- A small report with a duplicated match, for witnesses. -/
def sampleReport : Report :=
  { imageSize := some 100,
    matchList := [⟨"CVE-1", "Critical", "fixed", "libp", "1.0"⟩,
                  ⟨"CVE-1", "Critical", "fixed", "libp", "1.0"⟩,
                  ⟨"CVE-2", "High", "not-fixed", "libq", "2.0"⟩] }

/-- Witness for C1: an injected failure at the `scan_metadata` step leaves
the store exactly unchanged. -/
theorem ingest_atomic_witness :
    ingest (some .insertMetaStep) oneJobStore sampleReport "a" 0 = oneJobStore :=
  (ingest_atomic (some .insertMetaStep) oneJobStore sampleReport "a" 0).1 rfl

/-- Witness for C2: on a concrete store and report, both successful runs
append exactly one metadata row each. -/
theorem ingest_idempotent_witness :
    (ingest none oneJobStore sampleReport "a" 0).scan_metadata.length =
      oneJobStore.scan_metadata.length + 1 ∧
    (ingest none (ingest none oneJobStore sampleReport "a" 0) sampleReport
        "a" 1).scan_metadata.length =
      (ingest none oneJobStore sampleReport "a" 0).scan_metadata.length + 1 :=
  (ingest_idempotent_on_normalized_tables oneJobStore sampleReport "a" 0 1).2 (by decide)

/-- The spec's severity example: matches with severities
[Critical, Critical, High, Unknown]. -/
def severityExampleReport : Report :=
  { imageSize := some 50,
    matchList := [⟨"CVE-1", "Critical", "fixed", "p", "1"⟩,
                  ⟨"CVE-2", "Critical", "fixed", "p", "1"⟩,
                  ⟨"CVE-3", "High", "fixed", "p", "1"⟩,
                  ⟨"CVE-4", "Unknown", "fixed", "p", "1"⟩] }

/-- Witness for C4: severities [Critical, Critical, High, Unknown] yield
critical=2, high=1, unknown=1, total=4 and zero elsewhere. -/
theorem scan_metadata_histogram_witness :
    (ingest none oneJobStore severityExampleReport "a" 7).scan_metadata =
      oneJobStore.scan_metadata ++
      [{ image_id := 1, timestamp := 7, total_vulnerabilities := 4,
         critical_count := 2, high_count := 1, medium_count := 0, low_count := 0,
         negligible_count := 0, unknown_count := 1 }] :=
  (scan_metadata_records_severity_histogram oneJobStore severityExampleReport "a" 7
    ⟨1, "a", some 5, false, "pending", none, none⟩ (by decide)).trans (by decide)

/-- Witness for C5: a pull failure whose stderr contains "manifest unknown"
ends with status `manifest_unknown`, scanned, and only the pull action. -/
theorem terminal_status_classification_witness :
    process_container (some "a")
        { pullOutcome := .cpe "manifest unknown: tag absent", scanOutcome := .cpe,
          deleteOutcome := .ok, updateStatusFails := false,
          ingestConnectFails := false, ingestFail := none, now := 3 } oneJobStore =
      .ok (true, update_download_status oneJobStore "a" "manifest_unknown" 3,
           [.pullA]) ∧
    ∃ row ∈ (update_download_status oneJobStore "a" "manifest_unknown" 3).images,
      row.image_name = "a" ∧ row.download_status = "manifest_unknown" ∧
      row.is_scanned = true :=
  (terminal_status_classification "a"
      { pullOutcome := .cpe "manifest unknown: tag absent", scanOutcome := .cpe,
        deleteOutcome := .ok, updateStatusFails := false,
        ingestConnectFails := false, ingestFail := none, now := 3 } oneJobStore
      (by decide) rfl).1
    "manifest unknown: tag absent" rfl (by decide)

/-- The round results of a pool run that works for two rounds and then sees
an empty backlog: rounds 0 and 1 have a worker return `True`, round 2 is
all `False`. -/
def exampleRounds : Nat → List Bool :=
  fun k => if k < 2 then [true, false, false, false] else [false, false, false, false]

/-- Witness for C6: the loop stops exactly at round 2. -/
theorem pool_terminates_witness :
    poolLoop exampleRounds 0 5 = some 2 :=
  (pool_terminates_on_all_nojob_round.1 exampleRounds 5 2).mpr
    ⟨by decide, by decide, by decide⟩

/-- Witness for C10: ingesting for an unknown job name on the empty store
rolls back and leaves the store unchanged. -/
theorem ingest_unknown_job_witness :
    ingestTx none emptyStore sampleReport "ghost" 0 = none ∧
    ingest none emptyStore sampleReport "ghost" 0 = emptyStore :=
  ingest_unknown_job_rolls_back none emptyStore sampleReport "ghost" 0 (by decide)

end DockerDetective
